import Mathlib

/-!
Shallow embedding of the diff-output parser of `lib/git/diff.py`.

The source builds, for one changeset, a list of `Diff` records from the raw
text of a diff command:

* the text is split on the literal token `"\ndiff --git"` after a sentinel
  newline is prepended, and the first split piece is discarded;
* each remaining segment is matched against one verbose multi-line pattern
  (`diff_header` in the source) whose first clause — the
  `[ ]a/<a_path>[ ]b/<b_path>\n` path declaration — is mandatory and whose
  four further clauses (rename block, old/new mode pair, new-file mode,
  deleted-file mode, index line) are each optional;
* a failed mandatory clause makes `header.groups()` raise
  (`diff_header(diff)` returns `None`), aborting the whole call; this is
  modelled by `Except Unit`;
* each record stores the captures, the resolved modes
  (`old_mode or deleted_file_mode`, `new_mode or new_file_mode or b_mode`),
  the `new_file`/`deleted_file` flags (`bool(...)` of the captures), the
  derived `renamed` flag (`rename_from != rename_to`), and the unconsumed
  tail of the segment (`diff[header.end():]`).

The verbose pattern's first source line `#^diff[ ]--git` is a VERBOSE-mode
comment, so the compiled pattern starts at `[ ]a/`.  All quantifiers in the
pattern (`\S+`, `\d+`, `[0-9A-Fa-f]+`, `.+`, `[ ]?`) are greedy and — because
every later element of the pattern is optional and each maximal run is
followed by a character its class excludes — the match is deterministic:
backtracking can never produce a different overall match.  The functions
below therefore implement each clause as a deterministic
maximal-munch scan, which is observationally equal to the Python regex on
every input.
-/

namespace GitDiff

/-- Whitespace characters of the pattern's `\s`/`\S` classes (ASCII range). -/
def isPySpace (c : Char) : Bool :=
  c = ' ' || c = '\t' || c = '\n' || c = '\x0b' || c = '\x0c' || c = '\r'

/-- Characters of the pattern's `[0-9A-Fa-f]` class. -/
def isHexChar (c : Char) : Bool :=
  c.isDigit || ('a' ≤ c && c ≤ 'f') || ('A' ≤ c && c ≤ 'F')

/-- The split token `"\ndiff --git"` used in
`('\n' + text).split('\ndiff --git')`. -/
def delim : List Char := "\ndiff --git".data

/-- The per-file marker `"diff --git"` (the split token without its leading
newline). -/
def dtoken : List Char := "diff --git".data

/-- Consume an exact literal token; `none` if it is not a prefix. -/
def lit (tok s : List Char) : Option (List Char) :=
  if tok.isPrefixOf s then some (s.drop tok.length) else none

/-- Greedy `X+` for a character class `p`: the maximal run of characters
satisfying `p`, which must be nonempty. -/
def plusRun (p : Char → Bool) (s : List Char) : Option (List Char × List Char) :=
  match s.takeWhile p with
  | [] => none
  | c :: cs => some (c :: cs, s.dropWhile p)

/-- The pattern tail `(?:\n|$)`: consume a newline if one is next, otherwise
succeed exactly at the end of the segment. -/
def nlOrEnd (s : List Char) : Option (List Char) :=
  match s with
  | [] => some []
  | c :: rest => if c = '\n' then some rest else none

/-- The optional single space `[ ]?` of the index line. -/
def optSpace (s : List Char) : List Char :=
  match s with
  | [] => []
  | c :: rest => if c = ' ' then rest else c :: rest

/-- Mandatory clause `[ ]a/(?P<a_path>\S+)[ ]b/(?P<b_path>\S+)\n`. -/
def matchPaths (s : List Char) : Option ((List Char × List Char) × List Char) := do
  let s1 ← lit (" a/".data) s
  let (a, s2) ← plusRun (fun c => !isPySpace c) s1
  let s3 ← lit (" b/".data) s2
  let (b, s4) ← plusRun (fun c => !isPySpace c) s3
  let s5 ← lit ("\n".data) s4
  some ((a, b), s5)

/-- Optional clause
`(?:^similarity[ ]index[ ](?P<similarity_index>\d+)%\n^rename[ ]from[ ](?P<rename_from>\S+)\n^rename[ ]to[ ](?P<rename_to>\S+)(?:\n|$))?`:
either all three lines match in immediate succession or the whole group is
skipped. -/
def matchRename (s : List Char) :
    Option ((List Char × List Char × List Char) × List Char) := do
  let s1 ← lit ("similarity index ".data) s
  let (si, s2) ← plusRun Char.isDigit s1
  let s3 ← lit ("%\n".data) s2
  let s4 ← lit ("rename from ".data) s3
  let (rf, s5) ← plusRun (fun c => !isPySpace c) s4
  let s6 ← lit ("\n".data) s5
  let s7 ← lit ("rename to ".data) s6
  let (rt, s8) ← plusRun (fun c => !isPySpace c) s7
  let s9 ← nlOrEnd s8
  some ((si, rf, rt), s9)

/-- Optional clause
`(?:^old[ ]mode[ ](?P<old_mode>\d+)\n^new[ ]mode[ ](?P<new_mode>\d+)(?:\n|$))?`. -/
def matchOldNewMode (s : List Char) :
    Option ((List Char × List Char) × List Char) := do
  let s1 ← lit ("old mode ".data) s
  let (om, s2) ← plusRun Char.isDigit s1
  let s3 ← lit ("\n".data) s2
  let s4 ← lit ("new mode ".data) s3
  let (nm, s5) ← plusRun Char.isDigit s4
  let s6 ← nlOrEnd s5
  some ((om, nm), s6)

/-- Optional clause `(?:^new[ ]file[ ]mode[ ](?P<new_file_mode>.+)(?:\n|$))?`;
`.+` is the maximal nonempty run of non-newline characters. -/
def matchNewFileMode (s : List Char) : Option (List Char × List Char) := do
  let s1 ← lit ("new file mode ".data) s
  let (m, s2) ← plusRun (fun c => !(c = '\n')) s1
  let s3 ← nlOrEnd s2
  some (m, s3)

/-- Optional clause
`(?:^deleted[ ]file[ ]mode[ ](?P<deleted_file_mode>.+)(?:\n|$))?`. -/
def matchDeletedFileMode (s : List Char) : Option (List Char × List Char) := do
  let s1 ← lit ("deleted file mode ".data) s
  let (m, s2) ← plusRun (fun c => !(c = '\n')) s1
  let s3 ← nlOrEnd s2
  some (m, s3)

/-- Optional clause
`(?:^index[ ](?P<a_commit>[0-9A-Fa-f]+)\.\.(?P<b_commit>[0-9A-Fa-f]+)[ ]?(?P<b_mode>.+)?(?:\n|$))?`.
The `b_mode` capture participates only when `.+` can take at least one
character. -/
def matchIndex (s : List Char) :
    Option ((List Char × List Char × Option (List Char)) × List Char) := do
  let s1 ← lit ("index ".data) s
  let (ac, s2) ← plusRun isHexChar s1
  let s3 ← lit ("..".data) s2
  let (bc, s4) ← plusRun isHexChar s3
  let s5 := optSpace s4
  let bm := s5.takeWhile (fun c => !(c = '\n'))
  let s6 := s5.dropWhile (fun c => !(c = '\n'))
  let s7 ← nlOrEnd s6
  some ((ac, bc, if bm.isEmpty then none else some bm), s7)

/-- An optional clause of the pattern: if the clause does not match it is
treated as absent and consumes nothing. -/
def optC {α : Type} (f : List Char → Option (α × List Char)) (s : List Char) :
    Option α × List Char :=
  match f s with
  | some (v, r) => (some v, r)
  | none => (none, s)

/-- The twelve captures of `header.groups()`, in source order:
`a_path, b_path, similarity_index, rename_from, rename_to, old_mode,
new_mode, new_file_mode, deleted_file_mode, a_commit, b_commit, b_mode`.
Unmatched optional captures are `none`. -/
structure HeaderGroups where
  a_path : List Char
  b_path : List Char
  similarity_index : Option (List Char)
  rename_from : Option (List Char)
  rename_to : Option (List Char)
  old_mode : Option (List Char)
  new_mode : Option (List Char)
  new_file_mode : Option (List Char)
  deleted_file_mode : Option (List Char)
  a_commit : Option (List Char)
  b_commit : Option (List Char)
  b_mode : Option (List Char)
deriving Repr, DecidableEq

/-- Assemble the capture tuple from the clause results. -/
def mkGroups (a b : List Char)
    (ren : Option (List Char × List Char × List Char))
    (onm : Option (List Char × List Char))
    (nfm dfm : Option (List Char))
    (idx : Option (List Char × List Char × Option (List Char))) : HeaderGroups :=
  { a_path := a
    b_path := b
    similarity_index := ren.map fun t => t.1
    rename_from := ren.map fun t => t.2.1
    rename_to := ren.map fun t => t.2.2
    old_mode := onm.map fun t => t.1
    new_mode := onm.map fun t => t.2
    new_file_mode := nfm
    deleted_file_mode := dfm
    a_commit := idx.map fun t => t.1
    b_commit := idx.map fun t => t.2.1
    b_mode := idx.bind fun t => t.2.2 }

/-- The five optional clauses applied in pattern order after the mandatory
path clause, each stage continuing from the remainder of the previous one. -/
def stage1 (s : List Char) := optC matchRename s
def stage2 (s : List Char) := optC matchOldNewMode (stage1 s).2
def stage3 (s : List Char) := optC matchNewFileMode (stage2 s).2
def stage4 (s : List Char) := optC matchDeletedFileMode (stage3 s).2
def stage5 (s : List Char) := optC matchIndex (stage4 s).2

/-- The compiled header pattern applied with `.match` at the start of one
segment: `none` exactly when the mandatory path clause fails; otherwise the
captures together with the unconsumed tail of the segment
(`diff[header.end():]`). -/
def diff_header (s : List Char) : Option (HeaderGroups × List Char) :=
  match matchPaths s with
  | none => none
  | some ((a, b), s1) =>
      some (mkGroups a b (stage1 s1).1 (stage2 s1).1 (stage3 s1).1 (stage4 s1).1
              (stage5 s1).1,
            (stage5 s1).2)

/-- One record of the parse result (`class Diff`).  The opaque `repo` handle
of the source carries no parsing information and is not modelled.  `renamed`
is the derived `rename_from != rename_to` computed in `Diff.__init__`. -/
structure Diff where
  a_path : List Char
  b_path : List Char
  a_commit : Option (List Char)
  b_commit : Option (List Char)
  a_mode : Option (List Char)
  b_mode : Option (List Char)
  new_file : Bool
  deleted_file : Bool
  rename_from : Option (List Char)
  rename_to : Option (List Char)
  renamed : Bool
  diff : List Char
deriving Repr, DecidableEq

/-- `Diff.__init__`: stores its arguments and derives
`renamed = rename_from != rename_to`. -/
def Diff.make (a_path b_path : List Char)
    (a_commit b_commit a_mode b_mode : Option (List Char))
    (new_file deleted_file : Bool)
    (rename_from rename_to : Option (List Char)) (diff : List Char) : Diff :=
  { a_path := a_path
    b_path := b_path
    a_commit := a_commit
    b_commit := b_commit
    a_mode := a_mode
    b_mode := b_mode
    new_file := new_file
    deleted_file := deleted_file
    rename_from := rename_from
    rename_to := rename_to
    renamed := decide (rename_from ≠ rename_to)
    diff := diff }

/-- The loop body for one segment: `header.groups()` raises when the pattern
did not match (modelled by `Except.error ()`); otherwise the record is built
with the source's mode resolution `old_mode or deleted_file_mode` and
`new_mode or new_file_mode or b_mode`, the flags `bool(new_file_mode)`,
`bool(deleted_file_mode)`, and the tail `diff[header.end():]`. -/
def recordOfSegment (seg : List Char) : Except Unit Diff :=
  match diff_header seg with
  | none => Except.error ()
  | some (g, rest) =>
      Except.ok (Diff.make g.a_path g.b_path g.a_commit g.b_commit
        (g.old_mode <|> g.deleted_file_mode)
        (g.new_mode <|> (g.new_file_mode <|> g.b_mode))
        g.new_file_mode.isSome g.deleted_file_mode.isSome
        g.rename_from g.rename_to rest)

/-- Python `str.split` on the fixed token `delim`, scanning left to right and
cutting at every non-overlapping occurrence.  The fuel argument is the
length of the scanned list; it strictly bounds the recursion and the
zero-fuel fallback is unreachable from `splitDelim`. -/
def splitDelimAux : Nat → List Char → List Char → List (List Char)
  | _, [], acc => [acc.reverse]
  | 0, s, acc => [acc.reverse ++ s]
  | fuel + 1, c :: rest, acc =>
      if delim.isPrefixOf (c :: rest) then
        acc.reverse :: splitDelimAux fuel ((c :: rest).drop delim.length) []
      else
        splitDelimAux fuel rest (c :: acc)

/-- `s.split('\ndiff --git')` as a pure function on character lists. -/
def splitDelim (s : List Char) : List (List Char) :=
  splitDelimAux s.length s []

/-- The per-file segments: `('\n' + text).split('\ndiff --git')[1:]`. -/
def segments (text : List Char) : List (List Char) :=
  (splitDelim ('\n' :: text)).drop 1

/-- Left-to-right effectful map on `Except`, mirroring the source loop that
appends one record per segment and propagates the first failure. -/
def mapME {α β : Type} (f : α → Except Unit β) : List α → Except Unit (List β)
  | [] => Except.ok []
  | x :: xs =>
      match f x with
      | Except.error e => Except.error e
      | Except.ok y =>
          match mapME f xs with
          | Except.error e => Except.error e
          | Except.ok ys => Except.ok (y :: ys)

/-- The whole parser: split the raw text into segments and build one record
per segment, in input order; any segment whose mandatory path clause fails
aborts the call with an error and no result list. -/
def parse (text : String) : Except Unit (List Diff) :=
  mapME recordOfSegment (segments text.data)

/-! ### Specification predicates and concrete inputs used by the claims -/

/-- A consumed chunk that ends on a line boundary. -/
def EndsNl (p : List Char) : Prop := ∃ q, p = q ++ ['\n']

/-- `r` is what remains of `s` after the pattern consumed a chunk that either
reached the end of the segment or stopped just after a newline. -/
def TailNl (s r : List Char) : Prop :=
  ∃ p, s = p ++ r ∧ (r = [] ∨ EndsNl p)

/-- Like `TailNl` but the chunk may also be empty (an absent optional
clause consumes nothing). -/
def StepNl (s r : List Char) : Prop :=
  ∃ p, s = p ++ r ∧ (r = [] ∨ p = [] ∨ EndsNl p)

/-- Record produced for `diff --git a/f b/f` + `index a1b2c3..d4e5f6 100644`. -/
def recIndexOnly : Diff :=
  Diff.make "f".data "f".data (some "a1b2c3".data) (some "d4e5f6".data)
    none (some "100644".data) false false none none []

/-- Record produced for a segment carrying both a new-file-mode line and a
deleted-file-mode line. -/
def recBothModes : Diff :=
  Diff.make "x".data "x".data none none (some "100644".data)
    (some "100644".data) true true none none []

/-- Record produced for `diff --git a/x b/y` followed by a plain body. -/
def recPlain : Diff :=
  Diff.make "x".data "y".data none none none none false false none none
    "hello\n".data

/-- Record produced for a pure-rename segment (scenario B of the spec). -/
def recRename : Diff :=
  Diff.make "old.txt".data "new.txt".data none none none none false false
    (some "old.txt".data) (some "new.txt".data) []

/-- The pure-rename segment itself, as handed to the header pattern. -/
def segRename : List Char :=
  " a/old.txt b/new.txt\nsimilarity index 100%\nrename from old.txt\nrename to new.txt\n".data

/-- The captures of the header pattern on `segRename`. -/
def grpRename : HeaderGroups :=
  { a_path := "old.txt".data
    b_path := "new.txt".data
    similarity_index := some "100".data
    rename_from := some "old.txt".data
    rename_to := some "new.txt".data
    old_mode := none
    new_mode := none
    new_file_mode := none
    deleted_file_mode := none
    a_commit := none
    b_commit := none
    b_mode := none }

/-- Record for a segment whose rename block is misspelled (`renamed from`):
the clause is treated as absent and its lines stay in the body. -/
def recMisspelled : Diff :=
  Diff.make "a".data "b".data none none none none false false none none
    "similarity index 50%\nrenamed from a\nrename to b\n".data

/-- The misspelled-rename segment itself. -/
def segMisspelled : List Char :=
  " a/a b/b\nsimilarity index 50%\nrenamed from a\nrename to b\n".data

/-- Record for a segment whose old-mode line has a doubled space: the
old/new-mode clause is treated as absent. -/
def recDoubleSpace : Diff :=
  Diff.make "a".data "b".data none none none none false false none none
    "old  mode 100644\nnew mode 100755\n".data

/-- First record of the two-segment input. -/
def recTwoA : Diff :=
  Diff.make "x".data "x".data none none none none false false none none
    "foo".data

/-- Second record of the two-segment input. -/
def recTwoB : Diff :=
  Diff.make "y".data "y".data none none none none false false none none
    "bar\n".data

end GitDiff

namespace GitDiff

/-! ### Structural lemmas about the token combinators -/

theorem lit_some {tok s r : List Char} (h : lit tok s = some r) : s = tok ++ r := by
  unfold lit at h
  split at h
  · next hp =>
      obtain ⟨u, hu⟩ := List.isPrefixOf_iff_prefix.mp hp
      injection h with h
      subst hu
      rw [List.drop_left] at h
      rw [h]
  · exact absurd h (by simp)

theorem plusRun_some {p : Char → Bool} {s x r : List Char}
    (h : plusRun p s = some (x, r)) :
    s = x ++ r ∧ x ≠ [] ∧ ∀ c ∈ x, p c = true := by
  unfold plusRun at h
  split at h
  · exact absurd h (by simp)
  · next c cs heq =>
      injection h with h
      obtain ⟨hx, hr⟩ := Prod.mk.injEq .. ▸ h
      refine ⟨?_, ?_, ?_⟩
      · rw [← hx, ← hr, ← heq, List.takeWhile_append_dropWhile]
      · rw [← hx]; simp
      · intro a ha
        rw [← hx, ← heq] at ha
        exact List.mem_takeWhile_imp ha

theorem nlOrEnd_some {s r : List Char} (h : nlOrEnd s = some r) :
    (s = [] ∧ r = []) ∨ s = '\n' :: r := by
  cases s with
  | nil =>
      simp only [nlOrEnd] at h
      injection h with h
      exact Or.inl ⟨rfl, h.symm⟩
  | cons c t =>
      simp only [nlOrEnd] at h
      split at h
      · next hc =>
          injection h with h
          subst hc h
          exact Or.inr rfl
      · exact absurd h (by simp)

theorem optSpace_split (s : List Char) :
    ∃ w, s = w ++ optSpace s ∧ (w = [] ∨ w = [' ']) := by
  cases s with
  | nil => exact ⟨[], rfl, Or.inl rfl⟩
  | cons c t =>
      simp only [optSpace]
      split
      · next hc => subst hc; exact ⟨[' '], rfl, Or.inr rfl⟩
      · exact ⟨[], rfl, Or.inl rfl⟩

theorem tailNl_of_nlOrEnd {s r : List Char} (h : nlOrEnd s = some r) : TailNl s r := by
  rcases nlOrEnd_some h with ⟨hs, hr⟩ | hs
  · exact ⟨[], by rw [hs, hr]; rfl, Or.inl hr⟩
  · exact ⟨['\n'], by rw [hs]; rfl, Or.inr ⟨[], rfl⟩⟩

theorem TailNl.lift (A : List Char) {t r : List Char} (h : TailNl t r) :
    TailNl (A ++ t) r := by
  obtain ⟨p, hp, hc⟩ := h
  refine ⟨A ++ p, by rw [hp, List.append_assoc], ?_⟩
  rcases hc with h | ⟨q, hq⟩
  · exact Or.inl h
  · exact Or.inr ⟨A ++ q, by rw [hq, List.append_assoc]⟩

theorem TailNl.toStep {s r : List Char} (h : TailNl s r) : StepNl s r := by
  obtain ⟨p, hp, hc⟩ := h
  exact ⟨p, hp, by tauto⟩

theorem stepNl_trans {s m r : List Char} (h1 : TailNl s m) (h2 : StepNl m r) :
    TailNl s r := by
  obtain ⟨p, hp, hc1⟩ := h1
  obtain ⟨q, hq, hc2⟩ := h2
  refine ⟨p ++ q, by rw [hp, hq, List.append_assoc], ?_⟩
  rcases hc2 with h | h | ⟨q2, hq2⟩
  · exact Or.inl h
  · subst h
    rcases hc1 with hm | he
    · rw [hq] at hm
      simp at hm
      exact Or.inl hm
    · rw [List.append_nil]
      exact Or.inr he
  · exact Or.inr ⟨p ++ q2, by rw [hq2, List.append_assoc]⟩

/-! ### Per-clause structural lemmas -/

theorem matchPaths_some {s a b r : List Char}
    (h : matchPaths s = some ((a, b), r)) :
    s = " a/".data ++ a ++ " b/".data ++ b ++ '\n' :: r ∧
      (∀ c ∈ a, isPySpace c = false) ∧ (∀ c ∈ b, isPySpace c = false) := by
  unfold matchPaths at h
  obtain ⟨s1, h1, h⟩ := Option.bind_eq_some.mp h
  obtain ⟨⟨a2, s2⟩, h2, h⟩ := Option.bind_eq_some.mp h
  obtain ⟨s3, h3, h⟩ := Option.bind_eq_some.mp h
  obtain ⟨⟨b2, s4⟩, h4, h⟩ := Option.bind_eq_some.mp h
  obtain ⟨s5, h5, h⟩ := Option.bind_eq_some.mp h
  simp only [Option.some.injEq, Prod.mk.injEq] at h
  obtain ⟨⟨ha, hb⟩, hr⟩ := h
  subst ha hb hr
  obtain ⟨e2, -, hma⟩ := plusRun_some h2
  obtain ⟨e4, -, hmb⟩ := plusRun_some h4
  have hnl : "\n".data = ['\n'] := rfl
  refine ⟨?_, ?_, ?_⟩
  · rw [lit_some h1, e2, lit_some h3, e4, lit_some h5, hnl]
    simp [List.append_assoc]
  · intro c hc
    have := hma c hc
    simpa using this
  · intro c hc
    have := hmb c hc
    simpa using this

theorem matchPaths_tailNl {s a b r : List Char}
    (h : matchPaths s = some ((a, b), r)) : TailNl s r := by
  obtain ⟨hs, -, -⟩ := matchPaths_some h
  refine ⟨" a/".data ++ a ++ " b/".data ++ b ++ ['\n'], ?_,
    Or.inr ⟨" a/".data ++ a ++ " b/".data ++ b, rfl⟩⟩
  rw [hs]
  simp [List.append_assoc]

theorem matchRename_tailNl {s : List Char} {v : List Char × List Char × List Char}
    {r : List Char} (h : matchRename s = some (v, r)) : TailNl s r := by
  unfold matchRename at h
  obtain ⟨s1, h1, h⟩ := Option.bind_eq_some.mp h
  obtain ⟨⟨si, s2⟩, h2, h⟩ := Option.bind_eq_some.mp h
  obtain ⟨s3, h3, h⟩ := Option.bind_eq_some.mp h
  obtain ⟨s4, h4, h⟩ := Option.bind_eq_some.mp h
  obtain ⟨⟨rf, s5⟩, h5, h⟩ := Option.bind_eq_some.mp h
  obtain ⟨s6, h6, h⟩ := Option.bind_eq_some.mp h
  obtain ⟨s7, h7, h⟩ := Option.bind_eq_some.mp h
  obtain ⟨⟨rt, s8⟩, h8, h⟩ := Option.bind_eq_some.mp h
  obtain ⟨s9, h9, h⟩ := Option.bind_eq_some.mp h
  simp only [Option.some.injEq, Prod.mk.injEq] at h
  obtain ⟨-, hr⟩ := h
  subst hr
  rw [lit_some h1, (plusRun_some h2).1, lit_some h3, lit_some h4,
    (plusRun_some h5).1, lit_some h6, lit_some h7, (plusRun_some h8).1]
  exact ((((((((tailNl_of_nlOrEnd h9).lift rt).lift
    ("rename to ".data)).lift ("\n".data)).lift rf).lift
    ("rename from ".data)).lift ("%\n".data)).lift si).lift
    ("similarity index ".data)

theorem matchOldNewMode_tailNl {s : List Char} {v : List Char × List Char}
    {r : List Char} (h : matchOldNewMode s = some (v, r)) : TailNl s r := by
  unfold matchOldNewMode at h
  obtain ⟨s1, h1, h⟩ := Option.bind_eq_some.mp h
  obtain ⟨⟨om, s2⟩, h2, h⟩ := Option.bind_eq_some.mp h
  obtain ⟨s3, h3, h⟩ := Option.bind_eq_some.mp h
  obtain ⟨s4, h4, h⟩ := Option.bind_eq_some.mp h
  obtain ⟨⟨nm, s5⟩, h5, h⟩ := Option.bind_eq_some.mp h
  obtain ⟨s6, h6, h⟩ := Option.bind_eq_some.mp h
  simp only [Option.some.injEq, Prod.mk.injEq] at h
  obtain ⟨-, hr⟩ := h
  subst hr
  rw [lit_some h1, (plusRun_some h2).1, lit_some h3, lit_some h4,
    (plusRun_some h5).1]
  exact (((((tailNl_of_nlOrEnd h6).lift nm).lift ("new mode ".data)).lift
    ("\n".data)).lift om).lift ("old mode ".data)

theorem matchNewFileMode_some {s v r : List Char}
    (h : matchNewFileMode s = some (v, r)) :
    TailNl s r ∧ "new file mode ".data <+: s := by
  unfold matchNewFileMode at h
  obtain ⟨s1, h1, h⟩ := Option.bind_eq_some.mp h
  obtain ⟨⟨m, s2⟩, h2, h⟩ := Option.bind_eq_some.mp h
  obtain ⟨s3, h3, h⟩ := Option.bind_eq_some.mp h
  simp only [Option.some.injEq, Prod.mk.injEq] at h
  obtain ⟨-, hr⟩ := h
  subst hr
  constructor
  · rw [lit_some h1, (plusRun_some h2).1]
    exact (((tailNl_of_nlOrEnd h3).lift m).lift ("new file mode ".data))
  · exact ⟨s1, (lit_some h1).symm⟩

theorem matchDeletedFileMode_some {s v r : List Char}
    (h : matchDeletedFileMode s = some (v, r)) :
    TailNl s r ∧ "deleted file mode ".data <+: s := by
  unfold matchDeletedFileMode at h
  obtain ⟨s1, h1, h⟩ := Option.bind_eq_some.mp h
  obtain ⟨⟨m, s2⟩, h2, h⟩ := Option.bind_eq_some.mp h
  obtain ⟨s3, h3, h⟩ := Option.bind_eq_some.mp h
  simp only [Option.some.injEq, Prod.mk.injEq] at h
  obtain ⟨-, hr⟩ := h
  subst hr
  constructor
  · rw [lit_some h1, (plusRun_some h2).1]
    exact (((tailNl_of_nlOrEnd h3).lift m).lift ("deleted file mode ".data))
  · exact ⟨s1, (lit_some h1).symm⟩

theorem matchIndex_tailNl {s : List Char}
    {v : List Char × List Char × Option (List Char)} {r : List Char}
    (h : matchIndex s = some (v, r)) : TailNl s r := by
  unfold matchIndex at h
  obtain ⟨s1, h1, h⟩ := Option.bind_eq_some.mp h
  obtain ⟨⟨ac, s2⟩, h2, h⟩ := Option.bind_eq_some.mp h
  obtain ⟨s3, h3, h⟩ := Option.bind_eq_some.mp h
  obtain ⟨⟨bc, s4⟩, h4, h⟩ := Option.bind_eq_some.mp h
  obtain ⟨s7, h7, h⟩ := Option.bind_eq_some.mp h
  simp only [Option.some.injEq, Prod.mk.injEq] at h
  obtain ⟨-, hr⟩ := h
  subst hr
  obtain ⟨w, hw, -⟩ := optSpace_split s4
  have hsplit : optSpace s4 =
      (optSpace s4).takeWhile (fun c => !(c = '\n')) ++
        (optSpace s4).dropWhile (fun c => !(c = '\n')) :=
    (List.takeWhile_append_dropWhile _ _).symm
  rw [lit_some h1, (plusRun_some h2).1, lit_some h3, (plusRun_some h4).1, hw,
    hsplit]
  exact ((((((tailNl_of_nlOrEnd h7).lift
    ((optSpace s4).takeWhile (fun c => !(c = '\n')))).lift w).lift bc).lift
    ("..".data)).lift ac).lift ("index ".data)

/-! ### Lemmas about `optC` and `diff_header` -/

theorem optC_stepNl {α : Type} {f : List Char → Option (α × List Char)}
    (hf : ∀ {s : List Char} {v : α} {r : List Char}, f s = some (v, r) → TailNl s r)
    (s : List Char) : StepNl s (optC f s).2 := by
  unfold optC
  cases hfs : f s with
  | none => exact ⟨[], rfl, Or.inr (Or.inl rfl)⟩
  | some vr =>
      obtain ⟨v, r⟩ := vr
      exact (hf hfs).toStep

theorem optC_fst_some {α : Type} {f : List Char → Option (α × List Char)}
    {t : List Char} {v : α} (h : (optC f t).1 = some v) :
    f t = some (v, (optC f t).2) := by
  unfold optC at h ⊢
  cases hf : f t with
  | none => rw [hf] at h; exact absurd h (by simp)
  | some vr =>
      obtain ⟨v2, r⟩ := vr
      rw [hf] at h
      simp only at h
      injection h with h
      subst h
      rfl

theorem diff_header_destruct {s : List Char} {g : HeaderGroups} {rest : List Char}
    (h : diff_header s = some (g, rest)) :
    ∃ a b s1, matchPaths s = some ((a, b), s1) ∧
      g = mkGroups a b (stage1 s1).1 (stage2 s1).1 (stage3 s1).1 (stage4 s1).1
            (stage5 s1).1 ∧
      rest = (stage5 s1).2 := by
  unfold diff_header at h
  cases hm : matchPaths s with
  | none => rw [hm] at h; exact absurd h (by simp)
  | some v =>
      obtain ⟨⟨a, b⟩, s1⟩ := v
      rw [hm] at h
      simp only [Option.some.injEq, Prod.mk.injEq] at h
      exact ⟨a, b, s1, rfl, h.1.symm, h.2.symm⟩

theorem diff_header_none_iff {s : List Char} :
    diff_header s = none ↔ matchPaths s = none := by
  unfold diff_header
  cases hm : matchPaths s with
  | none => simp
  | some v =>
      obtain ⟨⟨a, b⟩, s1⟩ := v
      simp

/-- The pattern consumes an initial chunk of the segment that is empty at the
end of the segment or ends just after a newline; the unconsumed tail is a
suffix of the segment. -/
theorem diff_header_tailNl {s : List Char} {g : HeaderGroups} {rest : List Char}
    (h : diff_header s = some (g, rest)) : TailNl s rest := by
  obtain ⟨a, b, s1, hm, -, hrest⟩ := diff_header_destruct h
  subst hrest
  have t0 : TailNl s s1 := matchPaths_tailNl hm
  have t1 : TailNl s (stage1 s1).2 :=
    stepNl_trans t0 (optC_stepNl (fun h => matchRename_tailNl h) s1)
  have t2 : TailNl s (stage2 s1).2 :=
    stepNl_trans t1 (optC_stepNl (fun h => matchOldNewMode_tailNl h) (stage1 s1).2)
  have t3 : TailNl s (stage3 s1).2 :=
    stepNl_trans t2
      (optC_stepNl (fun h => (matchNewFileMode_some h).1) (stage2 s1).2)
  have t4 : TailNl s (stage4 s1).2 :=
    stepNl_trans t3
      (optC_stepNl (fun h => (matchDeletedFileMode_some h).1) (stage3 s1).2)
  exact stepNl_trans t4 (optC_stepNl (fun h => matchIndex_tailNl h) (stage4 s1).2)

/-! ### The split on `"\ndiff --git"` never leaves the token inside a piece -/

theorem delim_eq : delim = '\n' :: dtoken := rfl

theorem delim_ne_nil : delim ≠ [] := by decide

theorem dtoken_ne_nil : dtoken ≠ [] := by decide

theorem splitDelimAux_no_delim :
    ∀ (fuel : Nat) (s acc : List Char), s.length ≤ fuel →
      (∀ v, v ≠ [] → v <+: acc → ¬ delim <+: (v.reverse ++ s)) →
      ∀ p ∈ splitDelimAux fuel s acc, ¬ delim <:+: p := by
  intro fuel
  induction fuel with
  | zero =>
      intro s acc hlen hacc p hp
      have hs : s = [] := List.length_eq_zero.mp (Nat.le_zero.mp hlen)
      subst hs
      simp only [splitDelimAux, List.mem_singleton] at hp
      subst hp
      rintro ⟨u, w, huw⟩
      have hv : (delim ++ w).reverse <+: acc := by
        refine ⟨u.reverse, ?_⟩
        have : acc = acc.reverse.reverse := (List.reverse_reverse acc).symm
        rw [this, ← huw]
        simp
      have := hacc (delim ++ w).reverse (by simp [delim_ne_nil]) hv
      apply this
      refine ⟨w, ?_⟩
      simp
  | succ fuel ih =>
      intro s acc hlen hacc p hp
      cases s with
      | nil =>
          simp only [splitDelimAux, List.mem_singleton] at hp
          subst hp
          rintro ⟨u, w, huw⟩
          have hv : (delim ++ w).reverse <+: acc := by
            refine ⟨u.reverse, ?_⟩
            have : acc = acc.reverse.reverse := (List.reverse_reverse acc).symm
            rw [this, ← huw]
            simp
          have := hacc (delim ++ w).reverse (by simp [delim_ne_nil]) hv
          apply this
          refine ⟨w ++ [], ?_⟩
          simp
      | cons c rest =>
          simp only [splitDelimAux] at hp
          by_cases hd : delim.isPrefixOf (c :: rest) = true
          · rw [if_pos hd] at hp
            have hd2 : delim <+: (c :: rest) := List.isPrefixOf_iff_prefix.mp hd
            rcases List.mem_cons.mp hp with hp | hp
            · subst hp
              rintro ⟨u, w, huw⟩
              have hv : (delim ++ w).reverse <+: acc := by
                refine ⟨u.reverse, ?_⟩
                have : acc = acc.reverse.reverse := (List.reverse_reverse acc).symm
                rw [this, ← huw]
                simp
              have := hacc (delim ++ w).reverse (by simp [delim_ne_nil]) hv
              apply this
              refine ⟨w ++ (c :: rest), ?_⟩
              simp
            · refine ih _ [] ?_ ?_ p hp
              · have : (c :: rest).length ≤ fuel + 1 := hlen
                simp only [List.length_drop]
                have hd11 : delim.length = 11 := by decide
                simp only [List.length_cons] at this ⊢
                omega
              · intro v hv hpre
                exact absurd (List.prefix_nil.mp hpre) hv
          · rw [if_neg hd] at hp
            have hd2 : ¬ delim <+: (c :: rest) := fun hc =>
              hd (List.isPrefixOf_iff_prefix.mpr hc)
            refine ih rest (c :: acc) ?_ ?_ p hp
            · have : (c :: rest).length ≤ fuel + 1 := hlen
              simp only [List.length_cons] at this
              omega
            · intro v hv hpre
              cases v with
              | nil => exact absurd rfl hv
              | cons d v2 =>
                  obtain ⟨hdc, hv2⟩ := List.cons_prefix_cons.mp hpre
                  subst hdc
                  cases v2 with
                  | nil =>
                      intro hcon
                      simp only [List.reverse_cons, List.reverse_nil,
                        List.nil_append, List.singleton_append] at hcon
                      exact hd2 hcon
                  | cons e v3 =>
                      intro hcon
                      apply hacc (e :: v3) (by simp) hv2
                      simp only [List.reverse_cons, List.append_assoc] at hcon ⊢
                      simpa using hcon

theorem splitDelim_no_delim (s : List Char) :
    ∀ p ∈ splitDelim s, ¬ delim <:+: p := by
  intro p hp
  refine splitDelimAux_no_delim s.length s [] (Nat.le_refl _) ?_ p hp
  intro v hv hpre
  exact absurd (List.prefix_nil.mp hpre) hv

theorem segments_no_delim {text : List Char} {seg : List Char}
    (h : seg ∈ segments text) : ¬ delim <:+: seg := by
  have : seg ∈ splitDelim ('\n' :: text) :=
    (List.drop_sublist 1 _).mem h
  exact splitDelim_no_delim _ seg this

/-! ### Lemmas about the record loop -/

theorem mapME_ok_length {α β : Type} {f : α → Except Unit β} :
    ∀ {l : List α} {ys : List β}, mapME f l = Except.ok ys →
      ys.length = l.length := by
  intro l
  induction l with
  | nil =>
      intro ys h
      simp only [mapME] at h
      injection h with h
      simp [← h]
  | cons x xs ih =>
      intro ys h
      simp only [mapME] at h
      cases hx : f x with
      | error e => rw [hx] at h; exact absurd h (by simp)
      | ok y =>
          rw [hx] at h
          cases hxs : mapME f xs with
          | error e => rw [hxs] at h; exact absurd h (by simp)
          | ok zs =>
              rw [hxs] at h
              injection h with h
              rw [← h]
              simp [ih hxs]

theorem mapME_ok_get {α β : Type} {f : α → Except Unit β} :
    ∀ {l : List α} {ys : List β}, mapME f l = Except.ok ys →
      ∀ i (h1 : i < l.length) (h2 : i < ys.length),
        f (l.get ⟨i, h1⟩) = Except.ok (ys.get ⟨i, h2⟩) := by
  intro l
  induction l with
  | nil =>
      intro ys h i h1 h2
      exact absurd h1 (by simp)
  | cons x xs ih =>
      intro ys h i h1 h2
      simp only [mapME] at h
      cases hx : f x with
      | error e => rw [hx] at h; exact absurd h (by simp)
      | ok y =>
          rw [hx] at h
          cases hxs : mapME f xs with
          | error e => rw [hxs] at h; exact absurd h (by simp)
          | ok zs =>
              rw [hxs] at h
              injection h with h
              subst h
              cases i with
              | zero => simpa using hx
              | succ j =>
                  have hj1 : j < xs.length := by
                    simpa using h1
                  have hj2 : j < zs.length := by
                    simpa using h2
                  simpa using ih hxs j hj1 hj2

theorem mapME_ok_mem {α β : Type} {f : α → Except Unit β} :
    ∀ {l : List α} {ys : List β}, mapME f l = Except.ok ys →
      ∀ y ∈ ys, ∃ x, x ∈ l ∧ f x = Except.ok y := by
  intro l
  induction l with
  | nil =>
      intro ys h y hy
      simp only [mapME] at h
      injection h with h
      subst h
      exact absurd hy (by simp)
  | cons x xs ih =>
      intro ys h y hy
      simp only [mapME] at h
      cases hx : f x with
      | error e => rw [hx] at h; exact absurd h (by simp)
      | ok y0 =>
          rw [hx] at h
          cases hxs : mapME f xs with
          | error e => rw [hxs] at h; exact absurd h (by simp)
          | ok zs =>
              rw [hxs] at h
              injection h with h
              subst h
              rcases List.mem_cons.mp hy with hy | hy
              · subst hy
                exact ⟨x, List.mem_cons_self .., hx⟩
              · obtain ⟨x2, hx2, hfx2⟩ := ih hxs y hy
                exact ⟨x2, List.mem_cons_of_mem _ hx2, hfx2⟩

theorem mapME_error_iff {α β : Type} {f : α → Except Unit β} :
    ∀ {l : List α}, mapME f l = Except.error () ↔
      ∃ x, x ∈ l ∧ f x = Except.error () := by
  intro l
  induction l with
  | nil =>
      simp [mapME]
  | cons x xs ih =>
      constructor
      · intro h
        simp only [mapME] at h
        cases hx : f x with
        | error e =>
            cases e
            exact ⟨x, List.mem_cons_self .., hx⟩
        | ok y =>
            rw [hx] at h
            cases hxs : mapME f xs with
            | error e =>
                cases e
                obtain ⟨x2, hx2, hfx2⟩ := ih.mp hxs
                exact ⟨x2, List.mem_cons_of_mem _ hx2, hfx2⟩
            | ok zs => rw [hxs] at h; exact absurd h (by simp)
      · rintro ⟨x2, hx2, hfx2⟩
        simp only [mapME]
        rcases List.mem_cons.mp hx2 with hx2 | hx2
        · subst hx2
          rw [hfx2]
        · cases hx : f x with
          | error e => cases e; rfl
          | ok y =>
              have : mapME f xs = Except.error () := ih.mpr ⟨x2, hx2, hfx2⟩
              rw [this]

theorem mapME_ok_of_forall {α β : Type} {f : α → Except Unit β} :
    ∀ {l : List α}, (∀ x ∈ l, ∃ y, f x = Except.ok y) →
      ∃ ys, mapME f l = Except.ok ys := by
  intro l
  induction l with
  | nil => exact fun _ => ⟨[], rfl⟩
  | cons x xs ih =>
      intro h
      obtain ⟨y, hy⟩ := h x (List.mem_cons_self ..)
      obtain ⟨ys, hys⟩ := ih fun z hz => h z (List.mem_cons_of_mem _ hz)
      refine ⟨y :: ys, ?_⟩
      simp only [mapME]
      rw [hy, hys]

/-! ### Connecting records of a successful parse to their segments -/

theorem recordOfSegment_ok {seg : List Char} {r : Diff}
    (h : recordOfSegment seg = Except.ok r) :
    ∃ g, diff_header seg = some (g, r.diff) ∧
      r = Diff.make g.a_path g.b_path g.a_commit g.b_commit
            (g.old_mode <|> g.deleted_file_mode)
            (g.new_mode <|> (g.new_file_mode <|> g.b_mode))
            g.new_file_mode.isSome g.deleted_file_mode.isSome
            g.rename_from g.rename_to r.diff := by
  unfold recordOfSegment at h
  cases hd : diff_header seg with
  | none => rw [hd] at h; exact absurd h (by simp)
  | some gr =>
      obtain ⟨g, rest⟩ := gr
      rw [hd] at h
      injection h with h
      subst h
      exact ⟨g, rfl, rfl⟩

theorem recordOfSegment_error_iff {seg : List Char} :
    recordOfSegment seg = Except.error () ↔ matchPaths seg = none := by
  unfold recordOfSegment
  cases hd : diff_header seg with
  | none =>
      constructor
      · intro _
        exact diff_header_none_iff.mp hd
      · intro _
        rfl
  | some gr =>
      obtain ⟨g, rest⟩ := gr
      constructor
      · intro h
        exact absurd h (by simp)
      · intro h
        have h2 := diff_header_none_iff.mpr h
        rw [hd] at h2
        exact absurd h2 (by simp)

theorem recordOfSegment_ok_of_matchPaths {seg : List Char}
    (h : (matchPaths seg).isSome = true) :
    ∃ r, recordOfSegment seg = Except.ok r := by
  unfold recordOfSegment
  cases hd : diff_header seg with
  | none =>
      have := diff_header_none_iff.mp hd
      rw [this] at h
      exact absurd h (by simp)
  | some gr =>
      obtain ⟨g, rest⟩ := gr
      exact ⟨_, rfl⟩

/-- Every record of a successful parse comes from one of the segments: the
header pattern matched the segment, the record's fields are built from the
captures exactly as in the source, and `diff` is the unconsumed tail. -/
theorem parse_ok_mem {text : String} {records : List Diff} {r : Diff}
    (h : parse text = Except.ok records) (hr : r ∈ records) :
    ∃ seg g, seg ∈ segments text.data ∧ diff_header seg = some (g, r.diff) ∧
      r = Diff.make g.a_path g.b_path g.a_commit g.b_commit
            (g.old_mode <|> g.deleted_file_mode)
            (g.new_mode <|> (g.new_file_mode <|> g.b_mode))
            g.new_file_mode.isSome g.deleted_file_mode.isSome
            g.rename_from g.rename_to r.diff := by
  obtain ⟨seg, hseg, hok⟩ := mapME_ok_mem h r hr
  obtain ⟨g, hd, hmk⟩ := recordOfSegment_ok hok
  exact ⟨seg, g, hseg, hd, hmk⟩

/-- The input of every later stage is reached from the segment by consuming
an initial chunk that is empty or ends just after a newline. -/
theorem stageChain {s a b s1 : List Char}
    (hm : matchPaths s = some ((a, b), s1)) :
    TailNl s (stage1 s1).2 ∧ TailNl s (stage2 s1).2 ∧ TailNl s (stage3 s1).2 ∧
      TailNl s (stage4 s1).2 ∧ TailNl s (stage5 s1).2 := by
  have t0 : TailNl s s1 := matchPaths_tailNl hm
  have t1 : TailNl s (stage1 s1).2 :=
    stepNl_trans t0 (optC_stepNl (fun h => matchRename_tailNl h) s1)
  have t2 : TailNl s (stage2 s1).2 :=
    stepNl_trans t1 (optC_stepNl (fun h => matchOldNewMode_tailNl h) (stage1 s1).2)
  have t3 : TailNl s (stage3 s1).2 :=
    stepNl_trans t2
      (optC_stepNl (fun h => (matchNewFileMode_some h).1) (stage2 s1).2)
  have t4 : TailNl s (stage4 s1).2 :=
    stepNl_trans t3
      (optC_stepNl (fun h => (matchDeletedFileMode_some h).1) (stage3 s1).2)
  have t5 : TailNl s (stage5 s1).2 :=
    stepNl_trans t4 (optC_stepNl (fun h => matchIndex_tailNl h) (stage4 s1).2)
  exact ⟨t1, t2, t3, t4, t5⟩

theorem infix_of_prefix_tailNl {tok t s : List Char} (hpre : tok <+: t)
    (h : ∃ p, s = p ++ t) : tok <:+: s := by
  obtain ⟨u, hu⟩ := hpre
  obtain ⟨p, hp⟩ := h
  refine ⟨p, u, ?_⟩
  rw [hp, ← hu]
  simp [List.append_assoc]

/-- A record whose `new_file_mode` capture participated comes from a segment
containing the literal keyword `new file mode `. -/
theorem diff_header_new_file_infix {s : List Char} {g : HeaderGroups}
    {rest : List Char} (h : diff_header s = some (g, rest))
    (hm : g.new_file_mode.isSome = true) : "new file mode ".data <:+: s := by
  obtain ⟨a, b, s1, hp, hg, -⟩ := diff_header_destruct h
  have hnfm : g.new_file_mode = (stage3 s1).1 := by rw [hg]; rfl
  rw [hnfm] at hm
  obtain ⟨v, hv⟩ := Option.isSome_iff_exists.mp hm
  have := optC_fst_some (f := matchNewFileMode) (t := (stage2 s1).2)
    (v := v) (by exact hv)
  have hpre : "new file mode ".data <+: (stage2 s1).2 :=
    (matchNewFileMode_some this).2
  obtain ⟨-, t2, -, -, -⟩ := stageChain hp
  obtain ⟨p, hps, -⟩ := t2
  exact infix_of_prefix_tailNl hpre ⟨p, hps⟩

/-- A record whose `deleted_file_mode` capture participated comes from a
segment containing the literal keyword `deleted file mode `. -/
theorem diff_header_deleted_file_infix {s : List Char} {g : HeaderGroups}
    {rest : List Char} (h : diff_header s = some (g, rest))
    (hm : g.deleted_file_mode.isSome = true) :
    "deleted file mode ".data <:+: s := by
  obtain ⟨a, b, s1, hp, hg, -⟩ := diff_header_destruct h
  have hdfm : g.deleted_file_mode = (stage4 s1).1 := by rw [hg]; rfl
  rw [hdfm] at hm
  obtain ⟨v, hv⟩ := Option.isSome_iff_exists.mp hm
  have := optC_fst_some (f := matchDeletedFileMode) (t := (stage3 s1).2)
    (v := v) (by exact hv)
  have hpre : "deleted file mode ".data <+: (stage3 s1).2 :=
    (matchDeletedFileMode_some this).2
  obtain ⟨-, -, t3, -, -⟩ := stageChain hp
  obtain ⟨p, hps, -⟩ := t3
  exact infix_of_prefix_tailNl hpre ⟨p, hps⟩

/-- The three captures of the rename block participate together or not at
all. -/
theorem diff_header_rename_together {s : List Char} {g : HeaderGroups}
    {rest : List Char} (h : diff_header s = some (g, rest)) :
    g.similarity_index.isSome = g.rename_from.isSome ∧
      g.rename_from.isSome = g.rename_to.isSome := by
  obtain ⟨a, b, s1, -, hg, -⟩ := diff_header_destruct h
  subst hg
  cases (stage1 s1).1 with
  | none => simp [mkGroups]
  | some v => simp [mkGroups]

/-- The unconsumed tail never contains the split token, and starts with the
bare `diff --git` marker only if the marker occurred mid-line. -/
theorem no_token_at_line_start {seg rest : List Char}
    (hseg : ¬ delim <:+: seg) (ht : TailNl seg rest) :
    ¬ (dtoken <+: rest) ∧ ¬ (delim <:+: rest) := by
  obtain ⟨p, hp, hc⟩ := ht
  constructor
  · rintro ⟨w, hw⟩
    rcases hc with hr | ⟨q, hq⟩
    · rw [hr] at hw
      obtain ⟨h1, -⟩ := List.append_eq_nil.mp hw
      exact dtoken_ne_nil h1
    · apply hseg
      refine ⟨q, w, ?_⟩
      rw [hp, hq, ← hw, delim_eq]
      simp [List.append_assoc]
  · rintro ⟨u, w, huw⟩
    apply hseg
    refine ⟨p ++ u, w, ?_⟩
    rw [hp, ← huw]
    simp [List.append_assoc]

/-- Index-wise account of a successful parse: the result list has one record
per segment, in order; the `i`-th record was produced by `recordOfSegment`
on the `i`-th segment. -/
theorem parse_ok_get {text : String} {records : List Diff}
    (h : parse text = Except.ok records) :
    records.length = (segments text.data).length ∧
      ∀ i (hs : i < (segments text.data).length) (hi : i < records.length),
        recordOfSegment ((segments text.data).get ⟨i, hs⟩) =
          Except.ok (records.get ⟨i, hi⟩) := by
  unfold parse at h
  exact ⟨mapME_ok_length h, fun i hs hi => mapME_ok_get h i hs hi⟩

/-! ### The claims -/

/-- C1 (amended): for every input text whose segments all pass the mandatory
path clause, `parse` returns a sequence with exactly one record per segment
(one per occurrence of the delimiter `\ndiff --git` after the sentinel
newline is prepended), in input order; each record's header match and
`raw_body` are drawn from its own segment, with no cross-segment leakage. -/
theorem C1_one_record_per_segment_in_order (text : String)
    (hvalid : ∀ seg ∈ segments text.data, (matchPaths seg).isSome = true) :
    ∃ records, parse text = Except.ok records ∧
      records.length = (segments text.data).length ∧
      ∀ i (hs : i < (segments text.data).length) (hi : i < records.length),
        ∃ g pre,
          diff_header ((segments text.data).get ⟨i, hs⟩) =
            some (g, (records.get ⟨i, hi⟩).diff) ∧
          (segments text.data).get ⟨i, hs⟩ = pre ++ (records.get ⟨i, hi⟩).diff := by
  obtain ⟨records, hrec⟩ := mapME_ok_of_forall
    (fun seg hseg => recordOfSegment_ok_of_matchPaths (hvalid seg hseg))
  have hp : parse text = Except.ok records := hrec
  refine ⟨records, hp, (parse_ok_get hp).1, ?_⟩
  intro i hs hi
  have hro := (parse_ok_get hp).2 i hs hi
  obtain ⟨g, hd, -⟩ := recordOfSegment_ok hro
  obtain ⟨pre, hpre, -⟩ := diff_header_tailNl hd
  exact ⟨g, pre, hd, hpre⟩

/-- C1 counterexample: the claim as stated quantifies over every input text
with N delimiter occurrences, but an input whose single segment fails the
mandatory path clause makes `parse` fail instead of returning one record. -/
theorem C1_counterexample :
    (segments ("diff --git junk").data).length = 1 ∧
      parse "diff --git junk" = Except.error () :=
  ⟨rfl, rfl⟩

/-- C1 witness: on a two-segment input the parse succeeds with exactly two
records, in order, each isolated inside its own segment. -/
theorem C1_witness :
    ∃ records,
      parse "diff --git a/x b/x\nfoo\ndiff --git a/y b/y\nbar\n" =
        Except.ok records ∧
      records.length =
        (segments ("diff --git a/x b/x\nfoo\ndiff --git a/y b/y\nbar\n").data).length ∧
      ∀ i (hs : i <
            (segments ("diff --git a/x b/x\nfoo\ndiff --git a/y b/y\nbar\n").data).length)
        (hi : i < records.length),
        ∃ g pre,
          diff_header
              ((segments ("diff --git a/x b/x\nfoo\ndiff --git a/y b/y\nbar\n").data).get
                ⟨i, hs⟩) =
            some (g, (records.get ⟨i, hi⟩).diff) ∧
          (segments ("diff --git a/x b/x\nfoo\ndiff --git a/y b/y\nbar\n").data).get
              ⟨i, hs⟩ = pre ++ (records.get ⟨i, hi⟩).diff :=
  C1_one_record_per_segment_in_order
    "diff --git a/x b/x\nfoo\ndiff --git a/y b/y\nbar\n" (by decide)

/-- C2: for every parsed record, the effective old mode is the explicit
old-mode capture if present, else the deleted-file-mode value; the effective
new mode is the explicit new-mode capture if present, else the new-file-mode
value if present, else the mode trailing the index line; in particular a
segment whose only mode information is `index a1b2c3..d4e5f6 100644` yields
new mode `100644`. -/
theorem C2_mode_resolution :
    (∀ (text : String) (records : List Diff), parse text = Except.ok records →
      ∀ r ∈ records, ∃ seg g, seg ∈ segments text.data ∧
        diff_header seg = some (g, r.diff) ∧
        r.a_mode = (g.old_mode <|> g.deleted_file_mode) ∧
        r.b_mode = (g.new_mode <|> (g.new_file_mode <|> g.b_mode))) ∧
    (parse "diff --git a/f b/f\nindex a1b2c3..d4e5f6 100644\n" =
        Except.ok [recIndexOnly] ∧
      recIndexOnly.b_mode = some ("100644".data)) := by
  constructor
  · intro text records h r hr
    obtain ⟨seg, g, hseg, hd, hmk⟩ := parse_ok_mem h hr
    refine ⟨seg, g, hseg, hd, ?_, ?_⟩
    · rw [hmk]
      rfl
    · rw [hmk]
      rfl
  · exact ⟨rfl, rfl⟩

/-- C2 witness: the mode-resolution theorem applied to the index-only
input. -/
theorem C2_witness :
    ∃ seg g,
      seg ∈ segments ("diff --git a/f b/f\nindex a1b2c3..d4e5f6 100644\n").data ∧
      diff_header seg = some (g, recIndexOnly.diff) ∧
      recIndexOnly.a_mode = (g.old_mode <|> g.deleted_file_mode) ∧
      recIndexOnly.b_mode = (g.new_mode <|> (g.new_file_mode <|> g.b_mode)) :=
  C2_mode_resolution.1 "diff --git a/f b/f\nindex a1b2c3..d4e5f6 100644\n"
    [recIndexOnly] rfl recIndexOnly (List.mem_singleton.mpr rfl)

/-- C3 counterexample: a single segment carrying both a `new file mode` line
and a `deleted file mode` line yields one record with `is_new_file` and
`is_deleted_file` both true, refuting the claim that they are never both
true. -/
theorem C3_counterexample :
    parse "diff --git a/x b/x\nnew file mode 100644\ndeleted file mode 100644\n" =
      Except.ok [recBothModes] ∧
    recBothModes.new_file = true ∧ recBothModes.deleted_file = true :=
  ⟨rfl, rfl, rfl⟩

/-- C3 (amended): `is_new_file` and `is_deleted_file` are both true only for
a record whose own segment — the one the record's header match and
`raw_body` come from — contains both a `new file mode ` keyword and a
`deleted file mode ` keyword; a record produced from a segment lacking one
of the two clauses never has both flags true. -/
theorem C3_both_flags_need_both_clauses (text : String) (records : List Diff)
    (h : parse text = Except.ok records) :
    ∀ r ∈ records, r.new_file = true → r.deleted_file = true →
      ∃ seg g, seg ∈ segments text.data ∧
        diff_header seg = some (g, r.diff) ∧
        ("new file mode ".data <:+: seg) ∧
        ("deleted file mode ".data <:+: seg) := by
  intro r hr hnf hdf
  obtain ⟨seg, g, hseg, hd, hmk⟩ := parse_ok_mem h hr
  have hnf2 : g.new_file_mode.isSome = true := by
    have heq : r.new_file = g.new_file_mode.isSome := by rw [hmk]; rfl
    rw [← heq]
    exact hnf
  have hdf2 : g.deleted_file_mode.isSome = true := by
    have heq : r.deleted_file = g.deleted_file_mode.isSome := by rw [hmk]; rfl
    rw [← heq]
    exact hdf
  exact ⟨seg, g, hseg, hd, diff_header_new_file_infix hd hnf2,
    diff_header_deleted_file_infix hd hdf2⟩

/-- C3 witness: the amended theorem applied to the both-clauses input. -/
theorem C3_witness :
    ∃ seg g,
      seg ∈ segments
        ("diff --git a/x b/x\nnew file mode 100644\ndeleted file mode 100644\n").data ∧
      diff_header seg = some (g, recBothModes.diff) ∧
      ("new file mode ".data <:+: seg) ∧
      ("deleted file mode ".data <:+: seg) :=
  C3_both_flags_need_both_clauses
    "diff --git a/x b/x\nnew file mode 100644\ndeleted file mode 100644\n"
    [recBothModes] rfl recBothModes (List.mem_singleton.mpr rfl) rfl rfl

/-- C4: for every record produced by `parse`, the `renamed` flag equals
exactly the inequality `rename_from != rename_to`; in particular a record
with both rename fields absent has `renamed = false`. -/
theorem C4_renamed_iff_fields_differ :
    (∀ (text : String) (records : List Diff), parse text = Except.ok records →
      ∀ r ∈ records, r.renamed = decide (r.rename_from ≠ r.rename_to)) ∧
    (parse "diff --git a/x b/y\nhello\n" = Except.ok [recPlain] ∧
      recPlain.rename_from = none ∧ recPlain.rename_to = none ∧
      recPlain.renamed = false) := by
  constructor
  · intro text records h r hr
    obtain ⟨seg, g, hseg, hd, hmk⟩ := parse_ok_mem h hr
    rw [hmk]
    rfl
  · exact ⟨rfl, rfl, rfl, rfl⟩

/-- C4 witness: the renamed-flag theorem applied to a record of a concrete
parse. -/
theorem C4_witness :
    recPlain.renamed = decide (recPlain.rename_from ≠ recPlain.rename_to) :=
  C4_renamed_iff_fields_differ.1 "diff --git a/x b/y\nhello\n" [recPlain] rfl
    recPlain (List.mem_singleton.mpr rfl)

/-- C5: `parse` fails — with the failure surfaced to the caller as an error
carrying no partial result list — exactly when some segment's mandatory path
clause fails to match; a missing optional clause never fails the call. -/
theorem C5_error_iff_mandatory_clause_fails (text : String) :
    parse text = Except.error () ↔
      ∃ seg, seg ∈ segments text.data ∧ matchPaths seg = none := by
  unfold parse
  constructor
  · intro h
    obtain ⟨seg, hseg, herr⟩ := mapME_error_iff.mp h
    exact ⟨seg, hseg, recordOfSegment_error_iff.mp herr⟩
  · rintro ⟨seg, hseg, hfail⟩
    exact mapME_error_iff.mpr ⟨seg, hseg, recordOfSegment_error_iff.mpr hfail⟩

/-- C5 witness: the equivalence instantiated at a malformed input. -/
theorem C5_witness :
    parse "diff --git oops" = Except.error () ↔
      ∃ seg, seg ∈ segments ("diff --git oops").data ∧ matchPaths seg = none :=
  C5_error_iff_mandatory_clause_fails "diff --git oops"

/-- C6: an input with zero file segments (the sentinel split yields nothing
beyond the discarded first piece) parses to the empty sequence. -/
theorem C6_zero_segments_empty_result (text : String)
    (h : segments text.data = []) : parse text = Except.ok [] := by
  unfold parse
  rw [h]
  rfl

/-- C6 witness: the empty input has zero segments and parses to `[]`. -/
theorem C6_witness : segments "".data = [] ∧ parse "" = Except.ok [] :=
  ⟨rfl, C6_zero_segments_empty_result "" rfl⟩

/-- C7: the similarity-index, rename-from and rename-to captures are
all-or-none — at the capture level all three participate together, and a
record never has `rename_from` populated without `rename_to` or vice
versa. -/
theorem C7_rename_captures_all_or_none :
    (∀ (s : List Char) (g : HeaderGroups) (rest : List Char),
      diff_header s = some (g, rest) →
        g.similarity_index.isSome = g.rename_from.isSome ∧
        g.rename_from.isSome = g.rename_to.isSome) ∧
    (∀ (text : String) (records : List Diff), parse text = Except.ok records →
      ∀ r ∈ records, r.rename_from.isSome = r.rename_to.isSome) := by
  constructor
  · exact fun s g rest h => diff_header_rename_together h
  · intro text records h r hr
    obtain ⟨seg, g, hseg, hd, hmk⟩ := parse_ok_mem h hr
    have h2 := (diff_header_rename_together hd).2
    rw [hmk]
    exact h2

/-- C7 witness: both parts applied to the pure-rename segment. -/
theorem C7_witness :
    (grpRename.similarity_index.isSome = grpRename.rename_from.isSome ∧
      grpRename.rename_from.isSome = grpRename.rename_to.isSome) ∧
    recRename.rename_from.isSome = recRename.rename_to.isSome :=
  ⟨C7_rename_captures_all_or_none.1 segRename grpRename [] rfl,
   C7_rename_captures_all_or_none.2
    "diff --git a/old.txt b/new.txt\nsimilarity index 100%\nrename from old.txt\nrename to new.txt\n"
    [recRename] rfl recRename (List.mem_singleton.mpr rfl)⟩

/-- C8: once the mandatory path clause matches, the header match never
fails — a deviating optional clause (misspelled keyword, doubled spacing) is
treated as absent, leaving its captured fields empty, and is never an
error. -/
theorem C8_optional_deviation_absent_not_error :
    (∀ s : List Char, (matchPaths s).isSome = true →
      (diff_header s).isSome = true) ∧
    (parse "diff --git a/a b/b\nsimilarity index 50%\nrenamed from a\nrename to b\n" =
        Except.ok [recMisspelled] ∧
      recMisspelled.rename_from = none ∧ recMisspelled.rename_to = none) ∧
    (parse "diff --git a/a b/b\nold  mode 100644\nnew mode 100755\n" =
        Except.ok [recDoubleSpace] ∧
      recDoubleSpace.a_mode = none ∧ recDoubleSpace.b_mode = none) := by
  refine ⟨?_, ⟨rfl, rfl, rfl⟩, ⟨rfl, rfl, rfl⟩⟩
  intro s hm
  cases hp : matchPaths s with
  | none => rw [hp] at hm; exact absurd hm (by simp)
  | some v =>
      obtain ⟨⟨a, b⟩, s1⟩ := v
      unfold diff_header
      rw [hp]
      rfl

/-- C8 witness: the never-fails implication applied to the misspelled-rename
segment. -/
theorem C8_witness : (diff_header segMisspelled).isSome = true :=
  C8_optional_deviation_absent_not_error.1 segMisspelled rfl

/-- C9: each record's `raw_body` is exactly the tail of its own segment
after the matched header region, and it never contains the token
`diff --git` at the start of a line (neither at its own start nor after any
newline). -/
theorem C9_raw_body_verbatim_no_delimiter (text : String) (records : List Diff)
    (h : parse text = Except.ok records) :
    ∀ r ∈ records,
      (∃ seg g pre, seg ∈ segments text.data ∧
        diff_header seg = some (g, r.diff) ∧ seg = pre ++ r.diff) ∧
      ¬ (dtoken <+: r.diff) ∧ ¬ (delim <:+: r.diff) := by
  intro r hr
  obtain ⟨seg, g, hseg, hd, -⟩ := parse_ok_mem h hr
  have ht := diff_header_tailNl hd
  have hnd := segments_no_delim hseg
  obtain ⟨hn1, hn2⟩ := no_token_at_line_start hnd ht
  obtain ⟨pre, hpre, -⟩ := ht
  exact ⟨⟨seg, g, pre, hseg, hd, hpre⟩, hn1, hn2⟩

/-- C9 witness: the raw-body theorem applied to the first record of a
two-segment parse. -/
theorem C9_witness :
    (∃ seg g pre,
      seg ∈ segments ("diff --git a/x b/x\nfoo\ndiff --git a/y b/y\nbar\n").data ∧
      diff_header seg = some (g, recTwoA.diff) ∧ seg = pre ++ recTwoA.diff) ∧
    ¬ (dtoken <+: recTwoA.diff) ∧ ¬ (delim <:+: recTwoA.diff) :=
  C9_raw_body_verbatim_no_delimiter
    "diff --git a/x b/x\nfoo\ndiff --git a/y b/y\nbar\n" [recTwoA, recTwoB] rfl
    recTwoA (List.mem_cons_self ..)

/-- C10: the mandatory path clause accepts only whitespace-free path tokens
and requires the path line to end in a newline; a path with a space or a
missing final newline makes the whole parse fail. -/
theorem C10_paths_whitespace_free_newline_terminated :
    (∀ (s a b rest : List Char), matchPaths s = some ((a, b), rest) →
      (∀ c ∈ a, isPySpace c = false) ∧ (∀ c ∈ b, isPySpace c = false) ∧
      s = " a/".data ++ a ++ " b/".data ++ b ++ '\n' :: rest) ∧
    parse "diff --git a/x b/y" = Except.error () ∧
    parse "diff --git a/x y b/z\n" = Except.error () := by
  refine ⟨?_, rfl, rfl⟩
  intro s a b rest h
  obtain ⟨hs, ha, hb⟩ := matchPaths_some h
  exact ⟨ha, hb, hs⟩

/-- C10 witness: the shape theorem applied to a concrete matching line. -/
theorem C10_witness :
    (∀ c ∈ ("x".data), isPySpace c = false) ∧
    (∀ c ∈ ("y".data), isPySpace c = false) ∧
    (" a/x b/y\n".data) =
      " a/".data ++ "x".data ++ " b/".data ++ "y".data ++ '\n' :: [] :=
  C10_paths_whitespace_free_newline_terminated.1 (" a/x b/y\n".data)
    ("x".data) ("y".data) [] rfl

end GitDiff
